import Mathlib

/-!
# Verification of the TradingView → MetaTrader 5 bridge (order execution core)

Shallow embedding of the order-reconciliation and execution core of the
bridge: `app/mt5_handler.py` (`MT5Handler.get_positions`,
`MT5Handler.close_all_positions_by_type`,
`MT5Handler.close_position_by_volume`, `MT5Handler.place_order`) and the
webhook validation pipeline of `app/server.py` (`validate_volume`, the
`/trade` handler).

The venue gateway (the `MetaTrader5` module) is modelled as a deterministic
oracle answering each call in sequence; every gateway interaction is recorded
in an event trace so that ordering properties of submissions and quote
fetches can be stated.  Decimal quantities (lot volumes, prices) are
modelled as rationals; where a claim hinges on IEEE-754 double behaviour
(volume validation), binary doubles are modelled explicitly as the
rationals exactly representable with a 53-bit mantissa.
-/

namespace TVMT5

/-! ## Data model: MT5 constants, positions, ticks, order requests -/

/-- `mt5.ORDER_TYPE_BUY` -/
def ORDER_TYPE_BUY : Nat := 0

/-- `mt5.ORDER_TYPE_SELL` -/
def ORDER_TYPE_SELL : Nat := 1

/-- `mt5.TRADE_RETCODE_DONE` -/
def TRADE_RETCODE_DONE : Nat := 10009

/-- An open position as returned by `mt5.positions_get` (the fields the core
reads: `ticket`, `type`, `volume`). -/
structure Position where
  ticket : Nat
  ptype : Nat
  volume : ℚ
deriving DecidableEq, Repr

/-- A quote as returned by `mt5.symbol_info_tick` (fields `bid`, `ask`). -/
structure Tick where
  bid : ℚ
  ask : ℚ
deriving DecidableEq, Repr

/-- The order-request dictionary passed to `mt5.order_send`.  The fields of
the Python dict that carry trading content are kept; constant fields
(`"action": TRADE_ACTION_DEAL`, `"deviation": 20`, `"magic": 0`,
`"type_time"`, `"type_filling"`) are the same in every request and are
omitted.  `posTicket` is the optional `"position"` key: present (some) for a
close of an existing position, absent (none) for an open. -/
structure OrderRequest where
  symbol : String
  volume : ℚ
  otype : Nat
  posTicket : Option Nat
  price : ℚ
  comment : String
  sl : Option ℚ
  tp : Option ℚ
deriving DecidableEq, Repr

/-- Result of one `mt5.order_send` call: `done` (retcode
`TRADE_RETCODE_DONE`, carrying `result.order`), `rejected` (any other
retcode, carrying `result.comment`), or `exn` (the call raised). -/
inductive SendOutcome where
  | done (order : Nat)
  | rejected (comment : String)
  | exn
deriving DecidableEq, Repr

/-- Result of one `mt5.positions_get` call: the call raised (`exn`), or
returned `none` (Python `None`) or a tuple of positions. -/
inductive PosOutcome where
  | exn
  | ok (res : Option (List Position))
deriving DecidableEq, Repr

/-- One recorded gateway interaction, with the value the gateway produced.
`tickFetch` is a `symbol_info_tick` call (result possibly `None`),
`posFetch` a `positions_get` call, `submit` an `order_send` call. -/
inductive Event where
  | tickFetch (res : Option Tick)
  | posFetch (res : PosOutcome)
  | submit (req : OrderRequest) (res : SendOutcome)
deriving DecidableEq, Repr

/-- The venue gateway as a deterministic oracle: the `n`-th call of each
kind receives a fixed answer.  `symbolOk` models whether `mt5.symbol_info`
returns a (non-`None`) record for the traded symbol. -/
structure Venue where
  ticks : Nat → Option Tick
  sends : Nat → SendOutcome
  posLists : Nat → PosOutcome
  symbolOk : Bool

/-- Call counters plus the chronological trace of gateway interactions. -/
structure VSt where
  tickIdx : Nat
  sendIdx : Nat
  posIdx : Nat
  trace : List Event

/-- Fresh state: no calls made yet. -/
def VSt.init : VSt := ⟨0, 0, 0, []⟩

/-- One `mt5.symbol_info_tick` call. -/
def fetchTick (V : Venue) (st : VSt) : Option Tick × VSt :=
  let t := V.ticks st.tickIdx
  (t, { st with tickIdx := st.tickIdx + 1, trace := st.trace ++ [.tickFetch t] })

/-- One `mt5.order_send` call. -/
def sendOrder (V : Venue) (st : VSt) (req : OrderRequest) : SendOutcome × VSt :=
  let r := V.sends st.sendIdx
  (r, { st with sendIdx := st.sendIdx + 1, trace := st.trace ++ [.submit req r] })

/-! ## Python string primitives

Structural models of the Python string methods the webhook uses
(`str.strip`, `str.upper`, `str.lower`), restricted to ASCII, defined by
structural recursion on the character list so they evaluate by kernel
reduction. -/

/-- ASCII lower-casing of one character (Python `str.lower` per char). -/
def lowerChar (c : Char) : Char :=
  if 'A' ≤ c ∧ c ≤ 'Z' then Char.ofNat (c.toNat + 32) else c

/-- ASCII upper-casing of one character (Python `str.upper` per char). -/
def upperChar (c : Char) : Char :=
  if 'a' ≤ c ∧ c ≤ 'z' then Char.ofNat (c.toNat - 32) else c

/-- Python `str.lower()` (ASCII). -/
def asciiLower (s : String) : String :=
  ⟨s.data.map lowerChar⟩

/-- Python `str.upper()` (ASCII). -/
def asciiUpper (s : String) : String :=
  ⟨s.data.map upperChar⟩

/-- The whitespace characters removed by Python `str.strip()`. -/
def isSpaceChar (c : Char) : Bool :=
  (c == ' ') || (c == '\t') || (c == '\n') || (c == '\r') ||
  (c == '\x0b') || (c == '\x0c')

/-- Python `str.strip()`. -/
def pyStrip (s : String) : String :=
  ⟨((s.data.dropWhile isSpaceChar).reverse.dropWhile isSpaceChar).reverse⟩

/-! ## `MT5Handler` operations -/

/-- `MT5Handler.get_symbol_with_suffix`. -/
def get_symbol_with_suffix (suffix symbol : String) : String :=
  symbol ++ suffix

/-- `MT5Handler.get_positions` (mt5_handler.py lines 45–61): returns `[]`
when not connected (without contacting the venue); otherwise calls
`mt5.positions_get` and returns `[]` when that call raises, returns `None`,
or returns an empty tuple, and the position list otherwise. -/
def get_positions (V : Venue) (connected : Bool) (suffix : String)
    (symbolArg : Option String) (st : VSt) : List Position × VSt :=
  if connected then
    let _sym := match symbolArg with
      | some s => get_symbol_with_suffix suffix s
      | none => ""
    let r := V.posLists st.posIdx
    let st' := { st with posIdx := st.posIdx + 1, trace := st.trace ++ [.posFetch r] }
    match r with
    | .exn => ([], st')
    | .ok none => ([], st')
    | .ok (some l) => (l, st')
  else ([], st)

/-- The close-request dict built by both close loops of `mt5_handler.py`
(lines 73–85 and 117–129): a deal of the opposite type tagged with the
position ticket, priced bid when closing a buy and ask when closing a
sell. -/
def closeReqOf (sym : String) (p : Position) (tk : Tick) (vol : ℚ)
    (comment : String) : OrderRequest :=
  { symbol := sym
    volume := vol
    otype := if p.ptype = ORDER_TYPE_BUY then ORDER_TYPE_SELL else ORDER_TYPE_BUY
    posTicket := some p.ticket
    price := if p.ptype = ORDER_TYPE_BUY then tk.bid else tk.ask
    comment := comment
    sl := none
    tp := none }

/-- The loop body of `MT5Handler.close_all_positions_by_type`
(mt5_handler.py lines 69–97): for each position of the requested type, fetch
the current tick, submit a full-volume close tagged with the position
ticket, and on venue success append the ticket; a raised exception or a
rejection is logged and the loop continues. -/
def closeAllLoop (V : Venue) (sym : String) (ptype : Nat) :
    List Position → VSt → List Nat × VSt
  | [], st => ([], st)
  | p :: ps, st =>
    if p.ptype = ptype then
      let (t, st1) := fetchTick V st
      match t with
      | none => closeAllLoop V sym ptype ps st1
      | some tk =>
        let req := closeReqOf sym p tk p.volume "Close position"
        let (r, st2) := sendOrder V st1 req
        match r with
        | .done _ =>
          let (rest, st3) := closeAllLoop V sym ptype ps st2
          (p.ticket :: rest, st3)
        | .rejected _ => closeAllLoop V sym ptype ps st2
        | .exn => closeAllLoop V sym ptype ps st2
    else closeAllLoop V sym ptype ps st

/-- `MT5Handler.close_all_positions_by_type` (mt5_handler.py lines 63–97). -/
def close_all_positions_by_type (V : Venue) (connected : Bool) (suffix : String)
    (symbol : String) (ptype : Nat) (st : VSt) : List Nat × VSt :=
  let sym := get_symbol_with_suffix suffix symbol
  let (ps, st1) := get_positions V connected suffix (some sym) st
  closeAllLoop V sym ptype ps st1

/-- The loop body of `MT5Handler.close_position_by_volume` (mt5_handler.py
lines 107–142): stop when the remaining requested volume is exhausted;
otherwise close `min(position.volume, remaining)` from the next position,
decreasing the remaining volume only when the venue reports success;
exceptions and rejections are logged and the loop continues. -/
def closeVolLoop (V : Venue) (sym : String) :
    List Position → ℚ → VSt → List Nat × VSt
  | [], _, st => ([], st)
  | p :: ps, rem, st =>
    if rem ≤ 0 then ([], st)
    else
      let closeVol := min p.volume rem
      let (t, st1) := fetchTick V st
      match t with
      | none => closeVolLoop V sym ps rem st1
      | some tk =>
        let req := closeReqOf sym p tk closeVol
          ("Close " ++ toString closeVol ++ " lots")
        let (r, st2) := sendOrder V st1 req
        match r with
        | .done _ =>
          let (rest, st3) := closeVolLoop V sym ps (rem - closeVol) st2
          (p.ticket :: rest, st3)
        | .rejected _ => closeVolLoop V sym ps rem st2
        | .exn => closeVolLoop V sym ps rem st2

/-- `MT5Handler.close_position_by_volume` (mt5_handler.py lines 99–142). -/
def close_position_by_volume (V : Venue) (connected : Bool) (suffix : String)
    (symbol : String) (volume : ℚ) (ptypeFilter : Option Nat) (st : VSt) :
    List Nat × VSt :=
  let sym := get_symbol_with_suffix suffix symbol
  let (ps0, st1) := get_positions V connected suffix (some sym) st
  let ps := match ptypeFilter with
    | some ty => ps0.filter (fun p => p.ptype == ty)
    | none => ps0
  closeVolLoop V sym ps volume st1

/-- Result of `MT5Handler.place_order`: `noResult` is Python `None`;
`closeRes` is the dict `{"action": "close", "closed_positions": …,
"volume": …}`; `opened` is the success dict (keys `action`, `symbol`,
`volume`, `price`, `ticket`, `success: True`); `openFailed` is the failure
dict (keys `action`, `symbol`, `volume`, `success: False`, `error`). -/
inductive PlaceResult where
  | noResult
  | closeRes (closed : List Nat) (volume : ℚ)
  | opened (symbol : String) (volume : ℚ) (price : ℚ) (ticket : Nat)
  | openFailed (symbol : String) (volume : ℚ) (error : String)
deriving DecidableEq, Repr

/-- The value of the `"success"` key of the returned dict, when present.
Only the open-order dicts carry it; the close-summary dict and `None`
do not. -/
def PlaceResult.successField : PlaceResult → Option Bool
  | .opened _ _ _ _ => some true
  | .openFailed _ _ _ => some false
  | _ => none

/-- The value of a `"message"` key of the returned dict: no branch of
`place_order` ever puts a `"message"` key in its result. -/
def PlaceResult.messageField : PlaceResult → Option String
  | _ => none

/-- The value of the `"error"` key of the returned dict, when present. -/
def PlaceResult.errorField : PlaceResult → Option String
  | .openFailed _ _ e => some e
  | _ => none

/-- The open-request dict of `place_order` (mt5_handler.py lines 198–215):
no `"position"` key; `sl`/`tp` included only when truthy. -/
def openReqOf (sym action : String) (volume : ℚ) (otype : Nat)
    (price : ℚ) (sl tp : Option ℚ) : OrderRequest :=
  let keep : Option ℚ → Option ℚ := fun o =>
    match o with
    | some v => if v = 0 then none else some v
    | none => none
  { symbol := sym
    volume := volume
    otype := otype
    posTicket := none
    price := price
    comment := asciiUpper action ++ " order"
    sl := keep sl
    tp := keep tp }

/-- Shared tail of the buy/sell branches of `place_order` (mt5_handler.py
lines 197–238): build the open request, submit it, and wrap the outcome. -/
def openSend (V : Venue) (sym action : String) (volume : ℚ) (otype : Nat)
    (price : ℚ) (sl tp : Option ℚ) (st : VSt) : PlaceResult × VSt :=
  let req := openReqOf sym action volume otype price sl tp
  let (r, st') := sendOrder V st req
  match r with
  | .done o => (.opened sym volume price o, st')
  | .rejected c => (.openFailed sym volume c, st')
  | .exn => (.noResult, st')

/-- `MT5Handler.place_order` (mt5_handler.py lines 144–242).  Returns `None`
when not connected, when `mt5.symbol_info` finds no symbol, or when the
initial `mt5.symbol_info_tick` returns `None`.  For `"buy"`/`"sell"`
(case-insensitive) it first closes all opposite-type positions when any
exist, then submits one open order priced from the tick fetched at the top
of the function (ask for buy, bid for sell).  For `"close"` it delegates to
`close_position_by_volume` and returns the close summary.  Any other action
returns `None`. -/
def place_order (V : Venue) (connected : Bool) (suffix : String)
    (symbol action : String) (volume : ℚ) (sl tp : Option ℚ) (st : VSt) :
    PlaceResult × VSt :=
  if connected then
    let sym := get_symbol_with_suffix suffix symbol
    if V.symbolOk then
      let (t0, st1) := fetchTick V st
      match t0 with
      | none => (.noResult, st1)
      | some tk =>
        if asciiLower action = "buy" then
          let (ps, st2) := get_positions V connected suffix (some sym) st1
          let sellPs := ps.filter (fun p => p.ptype == ORDER_TYPE_SELL)
          let st3 :=
            if sellPs.isEmpty then st2
            else (close_all_positions_by_type V connected suffix sym ORDER_TYPE_SELL st2).2
          openSend V sym action volume ORDER_TYPE_BUY tk.ask sl tp st3
        else if asciiLower action = "sell" then
          let (ps, st2) := get_positions V connected suffix (some sym) st1
          let buyPs := ps.filter (fun p => p.ptype == ORDER_TYPE_BUY)
          let st3 :=
            if buyPs.isEmpty then st2
            else (close_all_positions_by_type V connected suffix sym ORDER_TYPE_BUY st2).2
          openSend V sym action volume ORDER_TYPE_SELL tk.bid sl tp st3
        else if asciiLower action = "close" then
          let (closed, st2) := close_position_by_volume V connected suffix sym volume none st1
          (.closeRes closed volume, st2)
        else (.noResult, st1)
    else (.noResult, st)
  else (.noResult, st)

/-! ## Trace observations -/

/-- A submission carrying a `"position"` key (a Close leg). -/
def Event.isCloseSubmit : Event → Bool
  | .submit req _ => req.posTicket.isSome
  | _ => false

/-- A submission without a `"position"` key (the Open leg). -/
def Event.isOpenSubmit : Event → Bool
  | .submit req _ => req.posTicket.isNone
  | _ => false

/-- The ticket targeted by a close submission, if the event is one. -/
def Event.closeTicket : Event → Option Nat
  | .submit req _ => req.posTicket
  | _ => none

/-- Tickets of all close submissions in a trace, in order. -/
def submittedCloseTickets (tr : List Event) : List Nat :=
  tr.filterMap Event.closeTicket

/-- Requests of all close submissions in a trace, in order. -/
def closeSubmitsIn (tr : List Event) : List OrderRequest :=
  tr.filterMap fun e =>
    match e with
    | .submit req _ => if req.posTicket.isSome then some req else none
    | _ => none

/-- Requests of all open submissions in a trace, in order. -/
def openSubmitsIn (tr : List Event) : List OrderRequest :=
  tr.filterMap fun e =>
    match e with
    | .submit req _ => if req.posTicket.isNone then some req else none
    | _ => none

/-- Results of all tick fetches in a trace, in order. -/
def tickFetchesIn (tr : List Event) : List (Option Tick) :=
  tr.filterMap fun e =>
    match e with
    | .tickFetch t => some t
    | _ => none

/-! ## IEEE-754 double model for volume validation

`validate_volume` in `app/server.py` operates on Python floats (binary64).
A double in the normal range is exactly a rational `m / 2^e` with a 53-bit
mantissa; `toDouble` maps an exact decimal input to the nearest double
(ties to even), which is what `float(...)` and JSON parsing produce, and
`pyRound2` models Python `round(x, 2)` on a double: the exact value of the
double is correctly rounded to two decimal places (ties to even) and the
resulting decimal is converted back to the nearest double. -/

/-- Round a rational to the nearest integer, ties to even. -/
def rhe (q : ℚ) : ℤ :=
  let n := ⌊q⌋
  let f := q - n
  if f < 1/2 then n
  else if 1/2 < f then n + 1
  else if n % 2 = 0 then n else n + 1

/-- Number of binary digits of a natural number (`⌊log₂ n⌋ + 1` for
`n > 0`, `0` for `0`), by fuel recursion so that it evaluates by kernel
reduction. -/
def bitLen (n : ℕ) : ℕ :=
  go n n
where
  go : ℕ → ℕ → ℕ
  | 0, _ => 0
  | fuel + 1, n => if n = 0 then 0 else go fuel (n / 2) + 1

/-- The IEEE-754 binary64 value nearest to a rational (normal range;
ties to even).  For `q > 0` the binade `flog = ⌊log₂ q⌋` is located from
the bit lengths of numerator and denominator, the exponent `e` is chosen
so that `q * 2^e ∈ [2^52, 2^53)`, and the 53-bit mantissa is rounded to
the nearest integer, ties to even. -/
def toDouble (q : ℚ) : ℚ :=
  if q < 0 then -(toDoubleAux (-q))
  else if q = 0 then 0
  else toDoubleAux q
where
  toDoubleAux (q : ℚ) : ℚ :=
    let s : ℤ := (bitLen q.num.toNat : ℤ) - (bitLen q.den : ℤ)
    let flog : ℤ := if q < (2 : ℚ) ^ s then s - 1 else s
    let e : ℤ := 52 - flog
    (rhe (q * (2 : ℚ) ^ e) : ℚ) * (2 : ℚ) ^ (-e)

/-- Python `round(x, 2)` on a double `x`: correctly round the exact value
to 2 decimal places (ties to even), then take the nearest double. -/
def pyRound2 (x : ℚ) : ℚ :=
  toDouble ((rhe (x * 100) : ℚ) / 100)

/-- The double denoted by the literal `0.01` (the `min_lots` bound in
`validate_volume`); slightly above `1/100`. -/
def min_lots : ℚ := toDouble (1/100)

/-! ## Signal Normalizer: the `/trade` webhook of `app/server.py` -/

/-- A JSON value as the webhook sees it after parsing.  Numbers carry the
exact rational value of the double produced by the JSON parser. -/
inductive JVal where
  | str (s : String)
  | num (q : ℚ)
  | bool (b : Bool)
  | null
deriving DecidableEq, Repr

/-- Python truthiness of a JSON value: empty strings, zero, `False` and
`None` are falsy. -/
def truthy : JVal → Bool
  | .str s => !s.isEmpty
  | .num q => decide (q ≠ 0)
  | .bool b => b
  | .null => false

/-- A parsed webhook payload: the JSON object as key/value pairs. -/
abbrev Payload := List (String × JVal)

/-- Python `a or b` where `a` is a `dict.get` result: `None` and falsy
values fall through to `b`. -/
def pyOr (a : Option JVal) (b : JVal) : JVal :=
  match a with
  | some v => if truthy v then v else b
  | none => b

/-- The volume alias chain of the webhook (server.py lines 285–289):
`data.get('volume') or data.get('lots') or data.get('lot_size') or
data.get('size') or DEFAULT_VOLUME`. -/
def resolveVolume (data : Payload) (defaultVolume : ℚ) : JVal :=
  pyOr (List.lookup "volume" data)
    (pyOr (List.lookup "lots" data)
      (pyOr (List.lookup "lot_size" data)
        (pyOr (List.lookup "size" data) (.num defaultVolume))))

/-- The first present-and-truthy value of a list of lookups. -/
def firstTruthyVal (l : List (Option JVal)) : Option JVal :=
  l.findSome? fun o => o.bind fun v => if truthy v then some v else none

/-- Decimal-literal parsing, modelling Python `float(s)` on plain decimal
strings (optional sign, digits, optional fractional part).  Exotic float
syntax (exponents, `inf`, `nan`, underscores) is not modelled; no theorem
relies on the `none` branch for a string Python would accept. -/
def parseDecimal (s : String) : Option ℚ :=
  let (sign, body) : ℚ × List Char :=
    match s.data with
    | '-' :: rest => (-1, rest)
    | '+' :: rest => (1, rest)
    | cs => (1, cs)
  let digitsVal : List Char → Option ℕ := fun cs =>
    cs.foldl (fun acc c =>
      match acc with
      | some n => if c.isDigit then some (n * 10 + (c.toNat - 48)) else none
      | none => none) (some 0)
  match body.splitOn '.' with
  | [a] =>
    if a.isEmpty then none
    else (digitsVal a).map fun n => sign * n
  | [a, b] =>
    if a.isEmpty ∧ b.isEmpty then none
    else
      match digitsVal a, digitsVal b with
      | some n, some m => some (sign * (n + (m : ℚ) / (10 : ℚ) ^ b.length))
      | _, _ => none
  | _ => none

/-- The range/precision checks of `validate_volume` (server.py lines 36–56),
applied to the double `vol` produced by `float(volume)`: positive, at most
100, and at least `0.01` after rounding to two decimals. -/
def validate_core (vol : ℚ) : Except String ℚ :=
  if vol ≤ 0 then .error "Lot size must be positive (greater than 0)"
  else if 100 < vol then .error "Lot size too large (maximum 100 lots allowed)"
  else
    let v := pyRound2 vol
    if v < min_lots then .error "Lot size too small (minimum 0.01 lots)"
    else .ok v

/-- `validate_volume` of `app/server.py` (lines 27–59): strings are
stripped and rejected when empty or unparsable, then `float(...)` is
applied; booleans convert as 1/0; `None` is not a number and fails. -/
def validate_volume (v : JVal) : Except String ℚ :=
  match v with
  | .str s =>
    let s := pyStrip s
    if s.isEmpty then .error "Volume cannot be empty"
    else
      match parseDecimal s with
      | none => .error "Invalid lot size format"
      | some q => validate_core (toDouble q)
  | .num q => validate_core q
  | .bool b => validate_core (if b then 1 else 0)
  | .null => .error "Invalid lot size format"

/-- The action values the webhook accepts (server.py line 276). -/
def valid_actions : List String := ["BUY", "SELL", "LONG", "SHORT"]

/-- The `close_existing` parsing of the webhook (server.py lines 307–316):
missing defaults to `True`; strings compare lower-cased against
`true/1/yes/on`; non-bools go through Python `bool(...)` (truthiness). -/
def parse_close_existing (v : Option JVal) : Bool :=
  match v with
  | none => true
  | some (.str s) => ["true", "1", "yes", "on"].contains (asciiLower s)
  | some (.bool b) => b
  | some (.num q) => decide (q ≠ 0)
  | some .null => false

/-- Outcome of the `/trade` webhook after JSON parsing: an error response
(`reject status message`, produced before any order reaches the venue) or a
call to the handler (`trade symbol orderType volume closeExisting`,
server.py line 330). -/
inductive WebhookOutcome where
  | reject (status : Nat) (message : String)
  | trade (symbol : String) (orderType : String) (volume : ℚ)
      (closeExisting : Bool)
deriving DecidableEq, Repr

/-- Whether a required field is present with a truthy value
(`'symbol' not in data or not data['symbol']`, server.py lines 237–240). -/
def presentTruthy (data : Payload) (k : String) : Bool :=
  match List.lookup k data with
  | some v => truthy v
  | none => false

/-- The validation pipeline of the `/trade` webhook (server.py lines
236–336), from a parsed JSON object to either an error response or the
handler call: required-field and type checks, symbol/action trimming and
upper-casing, the action whitelist, volume alias resolution and validation,
`close_existing` parsing, and the connection check. -/
def webhook (data : Payload) (connected : Bool) (defaultVolume : ℚ) :
    WebhookOutcome :=
  let missing :=
    (if presentTruthy data "symbol" then [] else ["symbol"]) ++
    (if presentTruthy data "action" then [] else ["action"])
  if missing.isEmpty then
    match List.lookup "symbol" data, List.lookup "action" data with
    | some (.str s), some (.str a) =>
      let symbol := asciiUpper (pyStrip s)
      let action := asciiUpper (pyStrip a)
      if symbol.isEmpty then .reject 400 "Symbol cannot be empty"
      else if valid_actions.contains action then
        match validate_volume (resolveVolume data defaultVolume) with
        | .error e => .reject 400 ("Lot size validation failed: " ++ e)
        | .ok validated =>
          let ce := parse_close_existing (List.lookup "close_existing" data)
          if connected then .trade symbol action validated ce
          else .reject 500 "MT5 connection is not available"
      else
        .reject 400 ("Invalid action " ++ action ++ ". Must be one of: " ++
          String.intercalate ", " valid_actions)
    | some (.str _), some _ => .reject 400 "Action must be a string"
    | _, _ => .reject 400 "Symbol must be a string"
  else .reject 400 ("Missing required fields: " ++ String.intercalate ", " missing)

/-! ## Spec-modelled `place_trade` -/

/-- Direction of a Buy/Sell trade intent. -/
inductive Direction where
  | buy
  | sell
deriving DecidableEq, Repr

/-- A planned leg, per spec section 3. -/
inductive LegKind where
  | closeLong
  | closeShort
  | openLong
  | openShort
deriving DecidableEq, Repr

/-- A planned action: one close of an existing position or the one open. -/
structure Leg where
  kind : LegKind
  targetTicket : Option Nat
  volume : ℚ
deriving DecidableEq, Repr

/-- Whether a leg is a Close leg. -/
def Leg.isClose (l : Leg) : Bool :=
  match l.kind with
  | .closeLong => true
  | .closeShort => true
  | _ => false

/-- The kind of the Open leg for a direction. -/
def openKindOf : Direction → LegKind
  | .buy => .openLong
  | .sell => .openShort

/-- Modelled from the spec: `MT5Handler.place_trade` is invoked by the
webhook (server.py line 330) with the parsed `close_existing` flag, but no
`place_trade` method exists in the sources; only its caller does.  Per spec
sections 4.2–4.3, for direction Buy or Sell it emits, when `closeExisting`
is true, one Close leg per opposite-side position (full volume, snapshot
order), skips those closes when `closeExisting` is false, and then emits
exactly one Open leg with the intent volume. -/
def place_trade_legs (dir : Direction) (positions : List Position)
    (volume : ℚ) (closeExisting : Bool) : List Leg :=
  let oppType := match dir with
    | .buy => ORDER_TYPE_SELL
    | .sell => ORDER_TYPE_BUY
  let closeKind : LegKind := match dir with
    | .buy => .closeShort
    | .sell => .closeLong
  let closes :=
    if closeExisting then
      (positions.filter (fun p => p.ptype == oppType)).map
        (fun p => Leg.mk closeKind (some p.ticket) p.volume)
    else []
  closes ++ [⟨openKindOf dir, none, volume⟩]

/-! ## Further observations and reference definitions -/

/-- The uniform price-selection rule of the executor: an order of type
`ORDER_TYPE_BUY` (opening a long or closing a short) transacts at the ask,
an order of type `ORDER_TYPE_SELL` at the bid. -/
def priceOf (otype : Nat) (t : Tick) : ℚ :=
  if otype = ORDER_TYPE_BUY then t.ask else t.bid

/-- Traces in which every submission is a Close leg priced from the quote
fetched immediately before it: such a trace is a sequence of stand-alone
tick/position fetches and adjacent pairs (tick fetch, close submission
priced from that tick).  In particular it contains no Open submission. -/
inductive FreshClosed : List Event → Prop
  | nil : FreshClosed []
  | tick (o : Option Tick) {rest : List Event} :
      FreshClosed rest → FreshClosed (Event.tickFetch o :: rest)
  | pos (r : PosOutcome) {rest : List Event} :
      FreshClosed rest → FreshClosed (Event.posFetch r :: rest)
  | closePair (t : Tick) (req : OrderRequest) (r : SendOutcome)
      {rest : List Event}
      (hclose : req.posTicket.isSome = true)
      (hprice : req.price = priceOf req.otype t) :
      FreshClosed rest →
      FreshClosed (Event.tickFetch (some t) :: Event.submit req r :: rest)

/-- Coarse classification of an event, for stating chronology concretely. -/
inductive EventTag where
  | tickF
  | posF
  | closeSub
  | openSub
deriving DecidableEq, Repr

/-- The tag of an event. -/
def Event.tag : Event → EventTag
  | .tickFetch _ => .tickF
  | .posFetch _ => .posF
  | .submit req _ => if req.posTicket.isSome then .closeSub else .openSub

/-- The full gateway-interaction trace of one `place_order` call started
from a fresh request (no prior calls). -/
def placeOrderTrace (V : Venue) (conn : Bool) (suffix symbol action : String)
    (vol : ℚ) (sl tp : Option ℚ) : List Event :=
  (place_order V conn suffix symbol action vol sl tp VSt.init).2.trace

/-- The consumption pattern of spec section 4.2 step 1 for a Close-only
request: consume positions in snapshot order, each for
`min(position volume, remaining)`, decreasing the remaining requested
volume, stopping when it is exhausted or positions run out.  Returns the
(ticket, close volume) pairs in order. -/
def specConsume : List Position → ℚ → List (Nat × ℚ)
  | [], _ => []
  | p :: ps, rem =>
    if rem ≤ 0 then []
    else (p.ticket, min p.volume rem) :: specConsume ps (rem - min p.volume rem)

/-! ## Concrete venues for counterexamples and witnesses -/

/-- Venue for the C3 counterexample: one long position of volume 1,
every call succeeds. -/
def VenueC3 : Venue :=
  { ticks := fun _ => some ⟨10, 11⟩
    sends := fun _ => .done 8001
    posLists := fun _ => .ok (some [⟨7, ORDER_TYPE_BUY, 1⟩])
    symbolOk := true }

/-- Venue for the C3 witness: two positions totalling 3/2 lots. -/
def VenueW3 : Venue :=
  { ticks := fun _ => some ⟨10, 11⟩
    sends := fun _ => .done 8002
    posLists := fun _ => .ok (some [⟨7, ORDER_TYPE_BUY, 1⟩, ⟨8, ORDER_TYPE_SELL, 1/2⟩])
    symbolOk := true }

/-- Venue for the C6 counterexample: three short positions; the second
`order_send` raises, the others succeed. -/
def VenueC6 : Venue :=
  { ticks := fun _ => some ⟨10, 11⟩
    sends := fun n => match n with
      | 0 => .done 9001
      | 1 => .exn
      | _ => .done 9002
    posLists := fun _ =>
      .ok (some [⟨111, ORDER_TYPE_SELL, 1⟩, ⟨222, ORDER_TYPE_SELL, 1⟩,
        ⟨333, ORDER_TYPE_SELL, 1⟩])
    symbolOk := true }

/-- Venue for the C8 counterexample: distinguishable successive quotes, one
short position, all submissions succeed. -/
def VenueC8 : Venue :=
  { ticks := fun n => match n with
      | 0 => some ⟨10, 11⟩
      | 1 => some ⟨20, 21⟩
      | _ => some ⟨30, 31⟩
    sends := fun _ => .done 7777
    posLists := fun _ => .ok (some [⟨5, ORDER_TYPE_SELL, 1⟩])
    symbolOk := true }

/-- The trace of the C8 counterexample run: a buy request against one open
short position. -/
def c8run : List Event :=
  placeOrderTrace VenueC8 true "" "EURUSD" "buy" (1/4) none none

/-- Venue for the C4 witness: two long positions (1 and 1/2 lots), all
calls succeed. -/
def VenueW4 : Venue :=
  { ticks := fun _ => some ⟨10, 11⟩
    sends := fun _ => .done 8100
    posLists := fun _ => .ok (some [⟨21, ORDER_TYPE_BUY, 1⟩, ⟨22, ORDER_TYPE_BUY, 1/2⟩])
    symbolOk := true }

/-- Venue whose position lookup raises, for the C10 witness. -/
def VenueW10 : Venue :=
  { ticks := fun _ => none
    sends := fun _ => .exn
    posLists := fun _ => .exn
    symbolOk := false }

/-! ## Helper lemmas: trace structure of the close loops -/

theorem FreshClosed.append {a b : List Event} (ha : FreshClosed a)
    (hb : FreshClosed b) : FreshClosed (a ++ b) := by
  induction ha with
  | nil => simpa using hb
  | tick o _ ih => exact .tick o ih
  | pos r _ ih => exact .pos r ih
  | closePair t req r hc hp _ ih => exact .closePair t req r hc hp ih

theorem FreshClosed.no_open {tr : List Event} (h : FreshClosed tr) :
    ∀ e ∈ tr, e.isOpenSubmit = false := by
  induction h with
  | nil => intro e he; cases he
  | tick o _ ih =>
    intro e he
    rcases List.mem_cons.1 he with rfl | he'
    · rfl
    · exact ih e he'
  | pos r _ ih =>
    intro e he
    rcases List.mem_cons.1 he with rfl | he'
    · rfl
    · exact ih e he'
  | closePair t req r hc _ _ ih =>
    intro e he
    rcases List.mem_cons.1 he with rfl | he'
    · rfl
    · rcases List.mem_cons.1 he' with rfl | he''
      · cases hpt : req.posTicket with
        | none => rw [hpt] at hc; simp at hc
        | some v => simp [Event.isOpenSubmit, hpt]
      · exact ih e he''

theorem openSend_split (V : Venue) (sym action : String) (volume : ℚ)
    (otype : Nat) (price : ℚ) (sl tp : Option ℚ) (st : VSt) :
    ∃ req r,
      (openSend V sym action volume otype price sl tp st).2.trace =
        st.trace ++ [.submit req r] ∧
      req.posTicket = none ∧ req.price = price ∧ req.otype = otype := by
  refine ⟨openReqOf sym action volume otype price sl tp, V.sends st.sendIdx,
    ?_, rfl, rfl, rfl⟩
  simp only [openSend, sendOrder]
  cases V.sends st.sendIdx <;> rfl

theorem get_positions_split (V : Venue) (connected : Bool) (suffix : String)
    (symbolArg : Option String) (st : VSt) :
    ∃ ext, (get_positions V connected suffix symbolArg st).2.trace =
        st.trace ++ ext ∧ FreshClosed ext := by
  cases connected with
  | false => exact ⟨[], by simp [get_positions], .nil⟩
  | true =>
    refine ⟨[.posFetch (V.posLists st.posIdx)], ?_, .pos _ .nil⟩
    simp only [get_positions]
    cases V.posLists st.posIdx with
    | exn => rfl
    | ok res => cases res <;> rfl

theorem closeReqOf_price (sym : String) (p : Position) (tk : Tick) (vol : ℚ)
    (c : String) :
    (closeReqOf sym p tk vol c).price =
      priceOf (closeReqOf sym p tk vol c).otype tk := by
  by_cases h : p.ptype = ORDER_TYPE_BUY <;>
    simp [closeReqOf, priceOf, ORDER_TYPE_BUY, ORDER_TYPE_SELL, h]

theorem closeAllLoop_spec (V : Venue) (sym : String) (ty : Nat) :
    ∀ (ps : List Position) (st : VSt),
      ∃ ext, (closeAllLoop V sym ty ps st).2.trace = st.trace ++ ext ∧
        FreshClosed ext ∧
        ((∀ i, (V.ticks i).isSome) →
          submittedCloseTickets ext =
            (ps.filter (fun p => p.ptype == ty)).map (fun p => p.ticket)) ∧
        List.Sublist (closeAllLoop V sym ty ps st).1
          ((ps.filter (fun p => p.ptype == ty)).map (fun p => p.ticket)) := by
  intro ps
  induction ps with
  | nil =>
    intro st
    exact ⟨[], by simp [closeAllLoop], .nil, by simp [closeAllLoop, submittedCloseTickets],
      by simp [closeAllLoop]⟩
  | cons p ps ih =>
    intro st
    by_cases hty : p.ptype = ty
    · cases ht : V.ticks st.tickIdx with
      | none =>
        obtain ⟨ext, hext, hfc, hsub, hsl⟩ :=
          ih { st with tickIdx := st.tickIdx + 1, trace := st.trace ++ [.tickFetch none] }
        refine ⟨.tickFetch none :: ext, ?_, .tick none hfc, ?_, ?_⟩
        · simp only [closeAllLoop, fetchTick, ht, if_pos hty]
          simpa using hext
        · intro hticks
          exact absurd (hticks st.tickIdx) (by simp [ht])
        · simp only [closeAllLoop, fetchTick, ht, if_pos hty]
          refine List.Sublist.trans hsl ?_
          simp [hty]
      | some tk =>
        cases hr : V.sends st.sendIdx with
        | done k =>
          obtain ⟨ext, hext, hfc, hsub, hsl⟩ :=
            ih { st with
                  tickIdx := st.tickIdx + 1
                  sendIdx := st.sendIdx + 1
                  trace := (st.trace ++ [.tickFetch (some tk)]) ++
                    [.submit (closeReqOf sym p tk p.volume "Close position") (.done k)] }
          refine ⟨.tickFetch (some tk) ::
              .submit (closeReqOf sym p tk p.volume "Close position") (.done k) :: ext,
            ?_, .closePair tk _ _ rfl (closeReqOf_price _ _ _ _ _) hfc, ?_, ?_⟩
          · simp only [closeAllLoop, fetchTick, sendOrder, ht, hr, if_pos hty]
            simpa using hext
          · intro hticks
            simp only [submittedCloseTickets, List.filterMap_cons] at hsub ⊢
            simp only [Event.closeTicket, closeReqOf]
            rw [hsub hticks]
            simp [hty]
          · simp only [closeAllLoop, fetchTick, sendOrder, ht, hr, if_pos hty]
            rw [List.filter_cons_of_pos (by simpa using hty)]
            exact List.Sublist.cons₂ _ hsl
        | rejected c =>
          obtain ⟨ext, hext, hfc, hsub, hsl⟩ :=
            ih { st with
                  tickIdx := st.tickIdx + 1
                  sendIdx := st.sendIdx + 1
                  trace := (st.trace ++ [.tickFetch (some tk)]) ++
                    [.submit (closeReqOf sym p tk p.volume "Close position") (.rejected c)] }
          refine ⟨.tickFetch (some tk) ::
              .submit (closeReqOf sym p tk p.volume "Close position") (.rejected c) :: ext,
            ?_, .closePair tk _ _ rfl (closeReqOf_price _ _ _ _ _) hfc, ?_, ?_⟩
          · simp only [closeAllLoop, fetchTick, sendOrder, ht, hr, if_pos hty]
            simpa using hext
          · intro hticks
            simp only [submittedCloseTickets, List.filterMap_cons] at hsub ⊢
            simp only [Event.closeTicket, closeReqOf]
            rw [hsub hticks]
            simp [hty]
          · simp only [closeAllLoop, fetchTick, sendOrder, ht, hr, if_pos hty]
            rw [List.filter_cons_of_pos (by simpa using hty)]
            exact List.Sublist.cons _ hsl
        | exn =>
          obtain ⟨ext, hext, hfc, hsub, hsl⟩ :=
            ih { st with
                  tickIdx := st.tickIdx + 1
                  sendIdx := st.sendIdx + 1
                  trace := (st.trace ++ [.tickFetch (some tk)]) ++
                    [.submit (closeReqOf sym p tk p.volume "Close position") .exn] }
          refine ⟨.tickFetch (some tk) ::
              .submit (closeReqOf sym p tk p.volume "Close position") .exn :: ext,
            ?_, .closePair tk _ _ rfl (closeReqOf_price _ _ _ _ _) hfc, ?_, ?_⟩
          · simp only [closeAllLoop, fetchTick, sendOrder, ht, hr, if_pos hty]
            simpa using hext
          · intro hticks
            simp only [submittedCloseTickets, List.filterMap_cons] at hsub ⊢
            simp only [Event.closeTicket, closeReqOf]
            rw [hsub hticks]
            simp [hty]
          · simp only [closeAllLoop, fetchTick, sendOrder, ht, hr, if_pos hty]
            rw [List.filter_cons_of_pos (by simpa using hty)]
            exact List.Sublist.cons _ hsl
    · obtain ⟨ext, hext, hfc, hsub, hsl⟩ := ih st
      refine ⟨ext, ?_, hfc, ?_, ?_⟩
      · simpa only [closeAllLoop, if_neg hty] using hext
      · intro hticks
        rw [hsub hticks]
        simp [hty]
      · simp only [closeAllLoop, if_neg hty]
        rw [List.filter_cons_of_neg (by simpa using hty)]
        exact hsl

theorem close_all_split (V : Venue) (connected : Bool) (suffix symbol : String)
    (ty : Nat) (st : VSt) :
    ∃ ext, (close_all_positions_by_type V connected suffix symbol ty st).2.trace =
        st.trace ++ ext ∧ FreshClosed ext := by
  unfold close_all_positions_by_type
  rcases hgp : get_positions V connected suffix
      (some (get_symbol_with_suffix suffix symbol)) st with ⟨ps, st1⟩
  obtain ⟨ext1, hext1, hfc1⟩ :=
    get_positions_split V connected suffix
      (some (get_symbol_with_suffix suffix symbol)) st
  rw [hgp] at hext1
  obtain ⟨ext2, hext2, hfc2, -, -⟩ := closeAllLoop_spec V
    (get_symbol_with_suffix suffix symbol) ty ps st1
  have hext1' : st1.trace = st.trace ++ ext1 := hext1
  refine ⟨ext1 ++ ext2, ?_, hfc1.append hfc2⟩
  simp only [hgp, hext2, hext1', List.append_assoc]

theorem place_order_split (V : Venue) (conn : Bool) (suffix symbol action : String)
    (vol : ℚ) (sl tp : Option ℚ) (st : VSt)
    (hact : asciiLower action = "buy" ∨ asciiLower action = "sell") :
    ∃ pre post,
      (place_order V conn suffix symbol action vol sl tp st).2.trace =
        st.trace ++ pre ++ post ∧
      FreshClosed pre ∧
      (post = [] ∨ ∃ t0 req r, pre.head? = some (.tickFetch (some t0)) ∧
        post = [.submit req r] ∧ req.posTicket = none ∧
        req.price = priceOf req.otype t0) := by
  cases conn with
  | false =>
    exact ⟨[], [], by simp [place_order], .nil, Or.inl rfl⟩
  | true =>
    cases hOk : V.symbolOk with
    | false =>
      exact ⟨[], [], by simp [place_order, hOk], .nil, Or.inl rfl⟩
    | true =>
      cases ht : V.ticks st.tickIdx with
      | none =>
        refine ⟨[.tickFetch none], [], ?_, .tick none .nil, Or.inl rfl⟩
        simp [place_order, fetchTick, hOk, ht]
      | some tk =>
        rcases hact with hb | hs
        · rcases hgp : get_positions V true suffix
              (some (get_symbol_with_suffix suffix symbol))
              { st with
                  tickIdx := st.tickIdx + 1
                  trace := st.trace ++ [.tickFetch (some tk)] } with ⟨ps, st2⟩
          obtain ⟨ext1, hext1, hfc1⟩ :=
            get_positions_split V true suffix
              (some (get_symbol_with_suffix suffix symbol))
              { st with
                  tickIdx := st.tickIdx + 1
                  trace := st.trace ++ [.tickFetch (some tk)] }
          rw [hgp] at hext1
          have hext1' : st2.trace = (st.trace ++ [Event.tickFetch (some tk)]) ++ ext1 :=
            hext1
          cases hemp : (ps.filter (fun p => p.ptype == ORDER_TYPE_SELL)).isEmpty with
          | true =>
            obtain ⟨req, r, hop, hpt, hpr, hot⟩ :=
              openSend_split V (get_symbol_with_suffix suffix symbol) action vol
                ORDER_TYPE_BUY tk.ask sl tp st2
            refine ⟨.tickFetch (some tk) :: ext1, [.submit req r], ?_,
              .tick _ hfc1, Or.inr ⟨tk, req, r, rfl, rfl, hpt, ?_⟩⟩
            · simp only [place_order, fetchTick, hOk, ht, hb, if_pos rfl, hgp, hemp]
              simp only [if_true]
              rw [hop, hext1']
              simp
            · rw [hpr, hot]
              simp [priceOf, ORDER_TYPE_BUY]
          | false =>
            obtain ⟨ext2, hext2, hfc2⟩ :=
              close_all_split V true suffix (get_symbol_with_suffix suffix symbol)
                ORDER_TYPE_SELL st2
            obtain ⟨req, r, hop, hpt, hpr, hot⟩ :=
              openSend_split V (get_symbol_with_suffix suffix symbol) action vol
                ORDER_TYPE_BUY tk.ask sl tp
                (close_all_positions_by_type V true suffix
                  (get_symbol_with_suffix suffix symbol) ORDER_TYPE_SELL st2).2
            refine ⟨.tickFetch (some tk) :: (ext1 ++ ext2), [.submit req r], ?_,
              .tick _ (hfc1.append hfc2), Or.inr ⟨tk, req, r, rfl, rfl, hpt, ?_⟩⟩
            · simp only [place_order, fetchTick, hOk, ht, hb, if_pos rfl, hgp, hemp]
              simp only [if_true, Bool.false_eq_true, if_false]
              rw [hop, hext2, hext1']
              simp
            · rw [hpr, hot]
              simp [priceOf, ORDER_TYPE_BUY]
        · rcases hgp : get_positions V true suffix
              (some (get_symbol_with_suffix suffix symbol))
              { st with
                  tickIdx := st.tickIdx + 1
                  trace := st.trace ++ [.tickFetch (some tk)] } with ⟨ps, st2⟩
          obtain ⟨ext1, hext1, hfc1⟩ :=
            get_positions_split V true suffix
              (some (get_symbol_with_suffix suffix symbol))
              { st with
                  tickIdx := st.tickIdx + 1
                  trace := st.trace ++ [.tickFetch (some tk)] }
          rw [hgp] at hext1
          have hext1' : st2.trace = (st.trace ++ [Event.tickFetch (some tk)]) ++ ext1 :=
            hext1
          cases hemp : (ps.filter (fun p => p.ptype == ORDER_TYPE_BUY)).isEmpty with
          | true =>
            obtain ⟨req, r, hop, hpt, hpr, hot⟩ :=
              openSend_split V (get_symbol_with_suffix suffix symbol) action vol
                ORDER_TYPE_SELL tk.bid sl tp st2
            refine ⟨.tickFetch (some tk) :: ext1, [.submit req r], ?_,
              .tick _ hfc1, Or.inr ⟨tk, req, r, rfl, rfl, hpt, ?_⟩⟩
            · simp only [place_order, fetchTick, hOk, ht, hs, if_pos rfl, hgp, hemp]
              simp only [eq_false (by decide : ¬(("sell" : String) = "buy")),
                if_false, if_true]
              rw [hop, hext1']
              simp
            · rw [hpr, hot]
              simp [priceOf, ORDER_TYPE_BUY, ORDER_TYPE_SELL]
          | false =>
            obtain ⟨ext2, hext2, hfc2⟩ :=
              close_all_split V true suffix (get_symbol_with_suffix suffix symbol)
                ORDER_TYPE_BUY st2
            obtain ⟨req, r, hop, hpt, hpr, hot⟩ :=
              openSend_split V (get_symbol_with_suffix suffix symbol) action vol
                ORDER_TYPE_SELL tk.bid sl tp
                (close_all_positions_by_type V true suffix
                  (get_symbol_with_suffix suffix symbol) ORDER_TYPE_BUY st2).2
            refine ⟨.tickFetch (some tk) :: (ext1 ++ ext2), [.submit req r], ?_,
              .tick _ (hfc1.append hfc2), Or.inr ⟨tk, req, r, rfl, rfl, hpt, ?_⟩⟩
            · simp only [place_order, fetchTick, hOk, ht, hs, if_pos rfl, hgp, hemp]
              simp only [eq_false (by decide : ¬(("sell" : String) = "buy")),
                if_false, if_true, Bool.false_eq_true]
              rw [hop, hext2, hext1']
              simp
            · rw [hpr, hot]
              simp [priceOf, ORDER_TYPE_BUY, ORDER_TYPE_SELL]

/-! ## Helper lemmas: the volume-consuming close loop -/

theorem volsum_nonneg {ps : List Position} (hnn : ∀ p ∈ ps, 0 ≤ p.volume) :
    0 ≤ (ps.map (fun p => p.volume)).sum := by
  induction ps with
  | nil => simp
  | cons p ps ih =>
    simp only [List.map_cons, List.sum_cons]
    have h1 := hnn p (List.mem_cons_self p ps)
    have h2 := ih fun q hq => hnn q (List.mem_cons_of_mem _ hq)
    linarith

theorem closeVolLoop_all (V : Venue) (sym : String) (ps : List Position)
    (rem : ℚ) (st : VSt)
    (htick : ∀ i, (V.ticks i).isSome = true)
    (hsend : ∀ i, ∃ k, V.sends i = .done k)
    (hnn : ∀ p ∈ ps, 0 ≤ p.volume)
    (hgt : (ps.map (fun p => p.volume)).sum < rem) :
    (closeVolLoop V sym ps rem st).1 = ps.map (fun p => p.ticket) := by
  induction ps generalizing rem st with
  | nil => simp [closeVolLoop]
  | cons p ps ih =>
    have hnn' : ∀ q ∈ ps, 0 ≤ q.volume := fun q hq => hnn q (List.mem_cons_of_mem _ hq)
    have hp0 : 0 ≤ p.volume := hnn p (List.mem_cons_self p ps)
    have hsum : 0 ≤ (ps.map (fun p => p.volume)).sum := volsum_nonneg hnn'
    simp only [List.map_cons, List.sum_cons] at hgt
    have hrem : ¬ rem ≤ 0 := by linarith
    have hmin : min p.volume rem = p.volume := min_eq_left (by linarith)
    obtain ⟨tk, htk⟩ := Option.isSome_iff_exists.1 (htick st.tickIdx)
    obtain ⟨k, hk⟩ := hsend st.sendIdx
    simp only [closeVolLoop, if_neg hrem, fetchTick, htk, sendOrder, hk, hmin]
    rw [ih _ _ hnn' (by linarith)]
    simp

theorem closeSubmitsIn_nil : closeSubmitsIn [] = [] := rfl

theorem closeSubmitsIn_tick (o : Option Tick) (ext : List Event) :
    closeSubmitsIn (.tickFetch o :: ext) = closeSubmitsIn ext := rfl

theorem closeSubmitsIn_pos (r : PosOutcome) (ext : List Event) :
    closeSubmitsIn (.posFetch r :: ext) = closeSubmitsIn ext := rfl

theorem closeSubmitsIn_close (req : OrderRequest) (r : SendOutcome)
    (ext : List Event) (h : req.posTicket.isSome = true) :
    closeSubmitsIn (.submit req r :: ext) = req :: closeSubmitsIn ext := by
  simp [closeSubmitsIn, List.filterMap_cons, h]

theorem closeVolLoop_sum (V : Venue) (sym : String) (ps : List Position)
    (rem : ℚ) (st : VSt) (hnn : ∀ p ∈ ps, 0 ≤ p.volume) :
    ∃ ext, (closeVolLoop V sym ps rem st).2.trace = st.trace ++ ext ∧
      ((closeSubmitsIn ext).map (fun r => r.volume)).sum ≤
        (ps.map (fun p => p.volume)).sum ∧
      List.Sublist (closeVolLoop V sym ps rem st).1
        (ps.map (fun p => p.ticket)) := by
  induction ps generalizing rem st with
  | nil =>
    exact ⟨[], by simp [closeVolLoop], by simp [closeSubmitsIn_nil], by simp [closeVolLoop]⟩
  | cons p ps ih =>
    have hnn' : ∀ q ∈ ps, 0 ≤ q.volume := fun q hq => hnn q (List.mem_cons_of_mem _ hq)
    have hp0 : 0 ≤ p.volume := hnn p (List.mem_cons_self p ps)
    have hsum : 0 ≤ (ps.map (fun p => p.volume)).sum := volsum_nonneg hnn'
    by_cases h0 : rem ≤ 0
    · refine ⟨[], by simp [closeVolLoop, if_pos h0], ?_, ?_⟩
      · simp only [closeSubmitsIn_nil, List.map_nil, List.sum_nil, List.map_cons,
          List.sum_cons]
        linarith
      · simp [closeVolLoop, if_pos h0]
    · cases htk : V.ticks st.tickIdx with
      | none =>
        obtain ⟨ext, hext, hbound, hsl⟩ := ih rem
          { st with
              tickIdx := st.tickIdx + 1
              trace := st.trace ++ [.tickFetch none] } hnn'
        refine ⟨.tickFetch none :: ext, ?_, ?_, ?_⟩
        · simp only [closeVolLoop, if_neg h0, fetchTick, htk]
          simpa using hext
        · rw [closeSubmitsIn_tick]
          simp only [List.map_cons, List.sum_cons]
          linarith
        · simp only [closeVolLoop, if_neg h0, fetchTick, htk]
          exact List.Sublist.trans hsl (List.sublist_cons_self _ _)
      | some tk =>
        cases hk : V.sends st.sendIdx with
        | done k =>
          obtain ⟨ext, hext, hbound, hsl⟩ := ih (rem - min p.volume rem)
            { st with
                tickIdx := st.tickIdx + 1
                sendIdx := st.sendIdx + 1
                trace := (st.trace ++ [.tickFetch (some tk)]) ++
                  [.submit (closeReqOf sym p tk (min p.volume rem)
                    ("Close " ++ toString (min p.volume rem) ++ " lots")) (.done k)] } hnn'
          refine ⟨.tickFetch (some tk) ::
              .submit (closeReqOf sym p tk (min p.volume rem)
                ("Close " ++ toString (min p.volume rem) ++ " lots")) (.done k) :: ext,
            ?_, ?_, ?_⟩
          · simp only [closeVolLoop, if_neg h0, fetchTick, htk, sendOrder, hk]
            simpa using hext
          · rw [closeSubmitsIn_tick, closeSubmitsIn_close
              (closeReqOf sym p tk (min p.volume rem)
                ("Close " ++ toString (min p.volume rem) ++ " lots")) _ _ rfl]
            simp only [List.map_cons, List.sum_cons]
            have hminle : min p.volume rem ≤ p.volume := min_le_left _ _
            have hvol : (closeReqOf sym p tk (min p.volume rem)
                ("Close " ++ toString (min p.volume rem) ++ " lots")).volume =
                min p.volume rem := rfl
            rw [hvol]
            linarith
          · simp only [closeVolLoop, if_neg h0, fetchTick, htk, sendOrder, hk]
            simpa using List.Sublist.cons₂ p.ticket hsl
        | rejected c =>
          obtain ⟨ext, hext, hbound, hsl⟩ := ih rem
            { st with
                tickIdx := st.tickIdx + 1
                sendIdx := st.sendIdx + 1
                trace := (st.trace ++ [.tickFetch (some tk)]) ++
                  [.submit (closeReqOf sym p tk (min p.volume rem)
                    ("Close " ++ toString (min p.volume rem) ++ " lots")) (.rejected c)] } hnn'
          refine ⟨.tickFetch (some tk) ::
              .submit (closeReqOf sym p tk (min p.volume rem)
                ("Close " ++ toString (min p.volume rem) ++ " lots")) (.rejected c) :: ext,
            ?_, ?_, ?_⟩
          · simp only [closeVolLoop, if_neg h0, fetchTick, htk, sendOrder, hk]
            simpa using hext
          · rw [closeSubmitsIn_tick, closeSubmitsIn_close
              (closeReqOf sym p tk (min p.volume rem)
                ("Close " ++ toString (min p.volume rem) ++ " lots")) _ _ rfl]
            simp only [List.map_cons, List.sum_cons]
            have hminle : min p.volume rem ≤ p.volume := min_le_left _ _
            have hvol : (closeReqOf sym p tk (min p.volume rem)
                ("Close " ++ toString (min p.volume rem) ++ " lots")).volume =
                min p.volume rem := rfl
            rw [hvol]
            linarith
          · simp only [closeVolLoop, if_neg h0, fetchTick, htk, sendOrder, hk]
            exact List.Sublist.trans hsl (List.sublist_cons_self _ _)
        | exn =>
          obtain ⟨ext, hext, hbound, hsl⟩ := ih rem
            { st with
                tickIdx := st.tickIdx + 1
                sendIdx := st.sendIdx + 1
                trace := (st.trace ++ [.tickFetch (some tk)]) ++
                  [.submit (closeReqOf sym p tk (min p.volume rem)
                    ("Close " ++ toString (min p.volume rem) ++ " lots")) .exn] } hnn'
          refine ⟨.tickFetch (some tk) ::
              .submit (closeReqOf sym p tk (min p.volume rem)
                ("Close " ++ toString (min p.volume rem) ++ " lots")) .exn :: ext,
            ?_, ?_, ?_⟩
          · simp only [closeVolLoop, if_neg h0, fetchTick, htk, sendOrder, hk]
            simpa using hext
          · rw [closeSubmitsIn_tick, closeSubmitsIn_close
              (closeReqOf sym p tk (min p.volume rem)
                ("Close " ++ toString (min p.volume rem) ++ " lots")) _ _ rfl]
            simp only [List.map_cons, List.sum_cons]
            have hminle : min p.volume rem ≤ p.volume := min_le_left _ _
            have hvol : (closeReqOf sym p tk (min p.volume rem)
                ("Close " ++ toString (min p.volume rem) ++ " lots")).volume =
                min p.volume rem := rfl
            rw [hvol]
            linarith
          · simp only [closeVolLoop, if_neg h0, fetchTick, htk, sendOrder, hk]
            exact List.Sublist.trans hsl (List.sublist_cons_self _ _)

theorem closeVolLoop_greedy (V : Venue) (sym : String) (ps : List Position)
    (rem : ℚ) (st : VSt)
    (htick : ∀ i, (V.ticks i).isSome = true)
    (hsend : ∀ i, ∃ k, V.sends i = .done k) :
    ∃ ext, (closeVolLoop V sym ps rem st).2.trace = st.trace ++ ext ∧
      (closeSubmitsIn ext).map (fun r => (r.posTicket.getD 0, r.volume)) =
        specConsume ps rem ∧
      (closeVolLoop V sym ps rem st).1 = (specConsume ps rem).map Prod.fst := by
  induction ps generalizing rem st with
  | nil => exact ⟨[], by simp [closeVolLoop], by simp [closeSubmitsIn_nil, specConsume],
      by simp [closeVolLoop, specConsume]⟩
  | cons p ps ih =>
    by_cases h0 : rem ≤ 0
    · exact ⟨[], by simp [closeVolLoop, if_pos h0],
        by simp [closeSubmitsIn_nil, specConsume, if_pos h0],
        by simp [closeVolLoop, specConsume, if_pos h0]⟩
    · obtain ⟨tk, htk⟩ := Option.isSome_iff_exists.1 (htick st.tickIdx)
      obtain ⟨k, hk⟩ := hsend st.sendIdx
      obtain ⟨ext, hext, hpairs, hres⟩ := ih (rem - min p.volume rem)
        { st with
            tickIdx := st.tickIdx + 1
            sendIdx := st.sendIdx + 1
            trace := (st.trace ++ [.tickFetch (some tk)]) ++
              [.submit (closeReqOf sym p tk (min p.volume rem)
                ("Close " ++ toString (min p.volume rem) ++ " lots")) (.done k)] }
      refine ⟨.tickFetch (some tk) ::
          .submit (closeReqOf sym p tk (min p.volume rem)
            ("Close " ++ toString (min p.volume rem) ++ " lots")) (.done k) :: ext,
        ?_, ?_, ?_⟩
      · simp only [closeVolLoop, if_neg h0, fetchTick, htk, sendOrder, hk]
        simpa using hext
      · rw [closeSubmitsIn_tick, closeSubmitsIn_close
              (closeReqOf sym p tk (min p.volume rem)
                ("Close " ++ toString (min p.volume rem) ++ " lots")) _ _ rfl]
        simp only [List.map_cons]
        rw [hpairs]
        simp only [specConsume, if_neg h0]
        rfl
      · simp only [closeVolLoop, if_neg h0, fetchTick, htk, sendOrder, hk]
        simp only [specConsume, if_neg h0, List.map_cons]
        simpa using hres

/-! ## Helper lemmas: index ordering from a trace split -/

theorem close_before_open_of_append {pre post : List Event}
    (hpre : ∀ e ∈ pre, e.isOpenSubmit = false)
    (hpost : ∀ e ∈ post, e.isCloseSubmit = false) :
    ∀ i j (hi : i < (pre ++ post).length) (hj : j < (pre ++ post).length),
      ((pre ++ post).get ⟨i, hi⟩).isCloseSubmit = true →
      ((pre ++ post).get ⟨j, hj⟩).isOpenSubmit = true → i < j := by
  intro i j hi hj hci hoj
  have hilt : i < pre.length := by
    by_contra hge
    push_neg at hge
    rw [List.get_eq_getElem, List.getElem_append_right hge] at hci
    have hmem := List.getElem_mem
      (l := post) (n := i - pre.length)
      (by
        have := hi
        simp only [List.length_append] at this
        omega)
    rw [hpost _ hmem] at hci
    cases hci
  have hjge : pre.length ≤ j := by
    by_contra hlt
    push_neg at hlt
    rw [List.get_eq_getElem, List.getElem_append_left hlt] at hoj
    have hmem := List.getElem_mem (l := pre) (n := j) hlt
    rw [hpre _ hmem] at hoj
    cases hoj
  omega

/-! ## Claim theorems -/

/-- Claim C1: for every Buy or Sell request, every Close submission to the
venue happens strictly before the single Open submission in the gateway
trace of `place_order`, and at most one Open submission is made. -/
theorem c1_closes_before_open (V : Venue) (conn : Bool)
    (suffix symbol action : String) (vol : ℚ) (sl tp : Option ℚ)
    (hact : asciiLower action = "buy" ∨ asciiLower action = "sell") :
    (∀ i j (hi : i < (placeOrderTrace V conn suffix symbol action vol sl tp).length)
        (hj : j < (placeOrderTrace V conn suffix symbol action vol sl tp).length),
      ((placeOrderTrace V conn suffix symbol action vol sl tp).get
        ⟨i, hi⟩).isCloseSubmit = true →
      ((placeOrderTrace V conn suffix symbol action vol sl tp).get
        ⟨j, hj⟩).isOpenSubmit = true →
      i < j) ∧
    ((placeOrderTrace V conn suffix symbol action vol sl tp).filter
      Event.isOpenSubmit).length ≤ 1 := by
  obtain ⟨pre, post, htr, hfc, hpost⟩ :=
    place_order_split V conn suffix symbol action vol sl tp VSt.init hact
  have htr' : placeOrderTrace V conn suffix symbol action vol sl tp = pre ++ post := by
    simpa [placeOrderTrace, VSt.init] using htr
  have hpre := hfc.no_open
  have hpostc : ∀ e ∈ post, e.isCloseSubmit = false := by
    rcases hpost with rfl | ⟨t0, req, r, hh, hpe, hpt, hpr⟩
    · intro e he; cases he
    · intro e he
      subst hpe
      rcases List.mem_cons.1 he with rfl | h
      · simp [Event.isCloseSubmit, hpt]
      · cases h
  constructor
  · rw [htr']
    exact close_before_open_of_append hpre hpostc
  · rw [htr', List.filter_append]
    have h1 : pre.filter Event.isOpenSubmit = [] :=
      List.filter_eq_nil_iff.mpr (fun e he => by simp [hpre e he])
    rw [h1]
    rcases hpost with rfl | ⟨t0, req, r, hh, hpe, hpt, hpr⟩
    · simp
    · subst hpe
      exact le_trans (List.length_filter_le _ _) (by simp)

/-- Witness for C1: a concrete buy request against an open short position. -/
theorem c1_closes_before_open_witness :
    (∀ i j (hi : i < (placeOrderTrace VenueC8 true "" "EURUSD" "buy" (1/4) none none).length)
        (hj : j < (placeOrderTrace VenueC8 true "" "EURUSD" "buy" (1/4) none none).length),
      ((placeOrderTrace VenueC8 true "" "EURUSD" "buy" (1/4) none none).get
        ⟨i, hi⟩).isCloseSubmit = true →
      ((placeOrderTrace VenueC8 true "" "EURUSD" "buy" (1/4) none none).get
        ⟨j, hj⟩).isOpenSubmit = true →
      i < j) ∧
    ((placeOrderTrace VenueC8 true "" "EURUSD" "buy" (1/4) none none).filter
      Event.isOpenSubmit).length ≤ 1 :=
  c1_closes_before_open VenueC8 true "" "EURUSD" "buy" (1/4) none none (Or.inl rfl)

/-- Claim C2: for a Buy or Sell intent whose `closeExisting` flag is false,
the planned leg sequence contains no Close leg and exactly the one Open leg
with the intent volume, regardless of the open positions.  (The executor
`place_trade` is modelled from the spec: the webhook calls it with the
parsed `close_existing` flag, but it is absent from the sources.) -/
theorem c2_close_existing_false_skips_closes (dir : Direction)
    (ps : List Position) (vol : ℚ) :
    place_trade_legs dir ps vol false = [⟨openKindOf dir, none, vol⟩] ∧
    ∀ l ∈ place_trade_legs dir ps vol false, l.isClose = false := by
  constructor
  · cases dir <;> simp [place_trade_legs]
  · intro l hl
    cases dir <;> simp [place_trade_legs] at hl <;>
      simp [hl, Leg.isClose, openKindOf]

/-- Claim C3 (amended): when a Close-only request asks for more volume than
the snapshot holds, `place_order` closes every available position and
returns the close-summary record with the requested volume — not `None` and
not an order-failure record — but the record carries no `success` flag and
no `message`, so the shortfall is not reported in the result. -/
theorem c3_close_exceeding_volume (V : Venue) (suffix symbol action : String)
    (vol : ℚ) (sl tp : Option ℚ) (ps : List Position)
    (hact : asciiLower action = "close")
    (hOk : V.symbolOk = true)
    (htick : ∀ i, (V.ticks i).isSome = true)
    (hsend : ∀ i, ∃ k, V.sends i = .done k)
    (hpos : V.posLists 0 = .ok (some ps))
    (hnn : ∀ p ∈ ps, 0 ≤ p.volume)
    (hgt : (ps.map (fun p => p.volume)).sum < vol) :
    (place_order V true suffix symbol action vol sl tp VSt.init).1 =
      .closeRes (ps.map (fun p => p.ticket)) vol ∧
    PlaceResult.successField (.closeRes (ps.map (fun p => p.ticket)) vol) = none ∧
    PlaceResult.messageField (.closeRes (ps.map (fun p => p.ticket)) vol) = none := by
  refine ⟨?_, rfl, rfl⟩
  obtain ⟨tk, htk⟩ := Option.isSome_iff_exists.1 (htick 0)
  have htk' : V.ticks VSt.init.tickIdx = some tk := htk
  simp only [place_order, hOk, fetchTick, htk', hact]
  simp only [eq_false (by decide : ¬(("close" : String) = "buy")),
    eq_false (by decide : ¬(("close" : String) = "sell")), if_false, if_true,
    if_pos rfl]
  have hpos' : V.posLists
      ({ VSt.init with
          tickIdx := VSt.init.tickIdx + 1
          trace := VSt.init.trace ++ [.tickFetch (some tk)] } : VSt).posIdx =
      .ok (some ps) := hpos
  simp only [close_position_by_volume, get_positions, hpos', if_true]
  rw [closeVolLoop_all V _ ps vol _ htick hsend hnn hgt]

/-- Claim C4: for a Close-only request, the close submissions of
`close_position_by_volume` follow the snapshot order with volumes
`min(remaining requested, position volume)`, stopping when the request is
exhausted (the `specConsume` pattern, proved under a responsive venue), and
— for every venue behaviour — the total submitted close volume never
exceeds the snapshot total and the closed tickets are a subsequence of the
snapshot tickets. -/
theorem c4_close_only_consumption (V : Venue) (suffix symbol : String)
    (vol : ℚ) (st : VSt) (ps : List Position)
    (hpos : V.posLists st.posIdx = .ok (some ps))
    (hnn : ∀ p ∈ ps, 0 ≤ p.volume) :
    (∃ ext, (close_position_by_volume V true suffix symbol vol none st).2.trace =
        st.trace ++ ext ∧
      ((closeSubmitsIn ext).map (fun r => r.volume)).sum ≤
        (ps.map (fun p => p.volume)).sum ∧
      List.Sublist (close_position_by_volume V true suffix symbol vol none st).1
        (ps.map (fun p => p.ticket))) ∧
    ((∀ i, (V.ticks i).isSome = true) → (∀ i, ∃ k, V.sends i = .done k) →
      ∃ ext, (close_position_by_volume V true suffix symbol vol none st).2.trace =
          st.trace ++ ext ∧
        (closeSubmitsIn ext).map (fun r => (r.posTicket.getD 0, r.volume)) =
          specConsume ps vol ∧
        (close_position_by_volume V true suffix symbol vol none st).1 =
          (specConsume ps vol).map Prod.fst) := by
  have hunfold : close_position_by_volume V true suffix symbol vol none st =
      closeVolLoop V (get_symbol_with_suffix suffix symbol) ps vol
        { st with
            posIdx := st.posIdx + 1
            trace := st.trace ++ [.posFetch (.ok (some ps))] } := by
    simp only [close_position_by_volume, get_positions, hpos, if_true]
  constructor
  · obtain ⟨ext, hext, hbound, hsl⟩ := closeVolLoop_sum V
      (get_symbol_with_suffix suffix symbol) ps vol
      { st with
          posIdx := st.posIdx + 1
          trace := st.trace ++ [.posFetch (.ok (some ps))] } hnn
    refine ⟨.posFetch (.ok (some ps)) :: ext, ?_, ?_, ?_⟩
    · rw [hunfold]
      simpa using hext
    · rw [closeSubmitsIn_pos]
      exact hbound
    · rw [hunfold]
      exact hsl
  · intro htick hsend
    obtain ⟨ext, hext, hpairs, hres⟩ := closeVolLoop_greedy V
      (get_symbol_with_suffix suffix symbol) ps vol
      { st with
          posIdx := st.posIdx + 1
          trace := st.trace ++ [.posFetch (.ok (some ps))] } htick hsend
    refine ⟨.posFetch (.ok (some ps)) :: ext, ?_, ?_, ?_⟩
    · rw [hunfold]
      simpa using hext
    · rw [closeSubmitsIn_pos]
      exact hpairs
    · rw [hunfold]
      exact hres

theorem webhook_trade_inv (data : Payload) (conn : Bool) (d : ℚ)
    (s a : String) (v : ℚ) (c : Bool)
    (h : webhook data conn d = .trade s a v c) :
    ∃ sa, List.lookup "action" data = some (.str sa) ∧
      a = asciiUpper (pyStrip sa) ∧ valid_actions.contains a = true := by
  simp only [webhook] at h
  by_cases hps : presentTruthy data "symbol" = true
  case neg =>
    simp only [if_neg hps] at h
    simp at h
  case pos =>
    simp only [if_pos hps] at h
    by_cases hpa : presentTruthy data "action" = true
    case neg =>
      simp only [if_neg hpa] at h
      simp at h
    case pos =>
      simp only [if_pos hpa] at h
      simp only [List.append_nil, List.isEmpty_nil, if_true] at h
      split at h
      case h_2 => simp at h
      case h_3 => simp at h
      case h_1 =>
        rename_i x1 x2 s0 a0 heq1 heq2
        split at h
        case isTrue => simp at h
        case isFalse =>
          split at h
          case isFalse => simp at h
          case isTrue hcond =>
            split at h
            case h_1 => simp at h
            case h_2 =>
              split at h
              case isFalse => simp at h
              case isTrue =>
                rw [WebhookOutcome.trade.injEq] at h
                obtain ⟨h1, h2, h3, h4⟩ := h
                exact ⟨a0, heq2, h2.symm, h2 ▸ hcond⟩

/-- Claim C5 (amended): the webhook accepts exactly the actions BUY, SELL,
LONG, SHORT case-insensitively (after trimming); the upper-cased action is
forwarded to the handler unmapped (no LONG→Buy translation), and every
other action value — including CLOSE — is rejected before any order reaches
the venue. -/
theorem c5_action_whitelist :
    valid_actions = ["BUY", "SELL", "LONG", "SHORT"] ∧
    (∀ (data : Payload) (conn : Bool) (d : ℚ) (s a : String) (v : ℚ) (c : Bool),
      webhook data conn d = .trade s a v c →
      ∃ sa, List.lookup "action" data = some (.str sa) ∧
        a = asciiUpper (pyStrip sa) ∧ valid_actions.contains a = true) ∧
    (∀ (data : Payload) (conn : Bool) (d : ℚ) (sa : String),
      List.lookup "action" data = some (.str sa) →
      valid_actions.contains (asciiUpper (pyStrip sa)) = false →
      ∀ (s a : String) (v : ℚ) (c : Bool),
        webhook data conn d ≠ .trade s a v c) := by
  refine ⟨rfl, fun data conn d s a v c h => webhook_trade_inv data conn d s a v c h, ?_⟩
  intro data conn d sa hla hfalse s a v c h
  obtain ⟨sa2, hla2, ha, hcon⟩ := webhook_trade_inv data conn d s a v c h
  rw [hla] at hla2
  injection hla2 with hla3
  injection hla3 with hla4
  rw [ha, ← hla4, hfalse] at hcon
  cases hcon

/-- Claim C6 (amended): a raised exception (for example a gateway timeout)
or a venue rejection while closing one leg does not stop
`close_all_positions_by_type`: when quotes are available, every matching
position of the snapshot is submitted for closing, in snapshot order,
regardless of earlier per-leg outcomes, earlier successes are preserved,
and the function returns only the list of successfully closed tickets — no
ConnectivityError-style result exists and no legs are skipped. -/
theorem c6_failures_do_not_stop_closing (V : Venue) (suffix symbol : String)
    (ty : Nat) (st : VSt) (ps : List Position)
    (hpos : V.posLists st.posIdx = .ok (some ps))
    (hticks : ∀ i, (V.ticks i).isSome = true) :
    ∃ ext, (close_all_positions_by_type V true suffix symbol ty st).2.trace =
        st.trace ++ ext ∧
      submittedCloseTickets ext =
        (ps.filter (fun p => p.ptype == ty)).map (fun p => p.ticket) ∧
      List.Sublist (close_all_positions_by_type V true suffix symbol ty st).1
        ((ps.filter (fun p => p.ptype == ty)).map (fun p => p.ticket)) := by
  have hunfold : close_all_positions_by_type V true suffix symbol ty st =
      closeAllLoop V (get_symbol_with_suffix suffix symbol) ty ps
        { st with
            posIdx := st.posIdx + 1
            trace := st.trace ++ [.posFetch (.ok (some ps))] } := by
    simp only [close_all_positions_by_type, get_positions, hpos, if_true]
  obtain ⟨ext, hext, hfc, hsub, hsl⟩ := closeAllLoop_spec V
    (get_symbol_with_suffix suffix symbol) ty ps
    { st with
        posIdx := st.posIdx + 1
        trace := st.trace ++ [.posFetch (.ok (some ps))] }
  refine ⟨.posFetch (.ok (some ps)) :: ext, ?_, ?_, ?_⟩
  · rw [hunfold]
    simpa using hext
  · simp only [submittedCloseTickets, List.filterMap_cons, Event.closeTicket]
    exact hsub hticks
  · rw [hunfold]
    exact hsl

/-- Claim C7 (amended): the webhook volume is the first alias value among
`volume`, `lots`, `lot_size`, `size` that is present with a truthy value;
an alias present with a falsy value (0, empty string, false, null) is
skipped as if absent, and the configured default applies exactly when all
four aliases are absent or falsy. -/
theorem c7_first_truthy_alias (data : Payload) (d : ℚ) :
    resolveVolume data d =
      (firstTruthyVal [List.lookup "volume" data, List.lookup "lots" data,
        List.lookup "lot_size" data, List.lookup "size" data]).getD (.num d) := by
  have pyOr_getD : ∀ (o : Option JVal) (b : JVal),
      pyOr o b = (o.bind fun v => if truthy v then some v else none).getD b := by
    intro o b
    cases o with
    | none => rfl
    | some v =>
      by_cases hv : truthy v <;> simp [pyOr, hv]
  have chain : ∀ (o : Option JVal) (l : List (Option JVal)) (b : JVal),
      (firstTruthyVal (o :: l)).getD b =
        ((o.bind fun v => if truthy v then some v else none).getD
          ((firstTruthyVal l).getD b)) := by
    intro o l b
    cases ho : o.bind fun v => if truthy v then some v else none with
    | none => simp [firstTruthyVal, List.findSome?_cons, ho]
    | some w => simp [firstTruthyVal, List.findSome?_cons, ho]
  simp only [resolveVolume, pyOr_getD, chain]
  simp [firstTruthyVal]

/-- Claim C8 (amended): each Close leg of `place_order` fetches a fresh
quote immediately before its own submission and is priced from it (the
`FreshClosed` trace shape), but the Open leg, when submitted, is priced
from the single quote fetched at the very start of `place_order` — the
first event of the trace, before any Close leg — rather than from a quote
fetched after the closes. -/
theorem c8_open_reuses_initial_quote (V : Venue) (conn : Bool)
    (suffix symbol action : String) (vol : ℚ) (sl tp : Option ℚ)
    (hact : asciiLower action = "buy" ∨ asciiLower action = "sell") :
    ∃ pre post,
      placeOrderTrace V conn suffix symbol action vol sl tp = pre ++ post ∧
      FreshClosed pre ∧
      (post = [] ∨ ∃ t0 req r, pre.head? = some (.tickFetch (some t0)) ∧
        post = [.submit req r] ∧ req.posTicket = none ∧
        req.price = priceOf req.otype t0) := by
  obtain ⟨pre, post, htr, hfc, hpost⟩ :=
    place_order_split V conn suffix symbol action vol sl tp VSt.init hact
  exact ⟨pre, post, by simpa [placeOrderTrace, VSt.init] using htr, hfc, hpost⟩

/-- Witness for C8 at a concrete buy request against one short position. -/
theorem c8_open_reuses_initial_quote_witness :
    ∃ pre post,
      placeOrderTrace VenueC8 true "" "EURUSD" "buy" (1/4) none none = pre ++ post ∧
      FreshClosed pre ∧
      (post = [] ∨ ∃ t0 req r, pre.head? = some (.tickFetch (some t0)) ∧
        post = [.submit req r] ∧ req.posTicket = none ∧
        req.price = priceOf req.otype t0) :=
  c8_open_reuses_initial_quote VenueC8 true "" "EURUSD" "buy" (1/4) none none
    (Or.inl rfl)

/-- Claim C10: `get_positions` is total at its interface: it always
returns a list, and that list is empty when the handler is not connected
(no venue call is made), when the venue position lookup raises, and when
the lookup returns `None`; a returned tuple is passed through as a list. -/
theorem c10_get_positions_total (V : Venue) (conn : Bool) (suffix : String)
    (symbolArg : Option String) (st : VSt) :
    (conn = false → (get_positions V conn suffix symbolArg st).1 = [] ∧
      (get_positions V conn suffix symbolArg st).2 = st) ∧
    (V.posLists st.posIdx = .exn →
      (get_positions V conn suffix symbolArg st).1 = []) ∧
    (V.posLists st.posIdx = .ok none →
      (get_positions V conn suffix symbolArg st).1 = []) ∧
    (∀ l, V.posLists st.posIdx = .ok (some l) → conn = true →
      (get_positions V conn suffix symbolArg st).1 = l) := by
  refine ⟨?_, ?_, ?_, ?_⟩
  · intro h
    subst h
    exact ⟨rfl, rfl⟩
  · intro h
    cases conn <;> simp [get_positions, h]
  · intro h
    cases conn <;> simp [get_positions, h]
  · intro l h hc
    subst hc
    simp [get_positions, h]

/-- Witness for C10: a disconnected handler and a raising venue both yield
the empty list. -/
theorem c10_get_positions_total_witness :
    (get_positions VenueW10 false "" none VSt.init).1 = [] ∧
    (get_positions VenueW10 true "" (some "EURUSD") VSt.init).1 = [] :=
  ⟨((c10_get_positions_total VenueW10 false "" none VSt.init).1 rfl).1,
    (c10_get_positions_total VenueW10 true "" (some "EURUSD") VSt.init).2.1 rfl⟩

/-! ## Concrete evaluations: counterexamples and witnesses

The rational arithmetic of Batteries is `@[irreducible]`; within this
section it is made semireducible again so that concrete runs evaluate by
kernel reduction. -/

section ConcreteRuns

attribute [local semireducible] Rat.add Rat.mul Rat.sub Rat.inv Rat.ofScientific

set_option maxRecDepth 100000

/-- Counterexample to C3 as stated: a Close-only request for 2 lots against
a single 1-lot position closes everything, but the returned record is the
plain close summary: it carries no `success` flag and no `message`, so no
shortfall (PartialExecutionWarning) is reported in the result. -/
theorem c3_counterexample :
    (place_order VenueC3 true "" "EURUSD" "close" 2 none none VSt.init).1 =
      .closeRes [7] 2 ∧
    PlaceResult.successField
      (place_order VenueC3 true "" "EURUSD" "close" 2 none none VSt.init).1 = none ∧
    PlaceResult.messageField
      (place_order VenueC3 true "" "EURUSD" "close" 2 none none VSt.init).1 = none := by
  refine ⟨?_, ?_, ?_⟩ <;> decide

/-- Witness for C3: two positions totalling 3/2 lots, requested volume 2. -/
theorem c3_close_exceeding_volume_witness :
    (place_order VenueW3 true "" "EURUSD" "close" 2 none none VSt.init).1 =
      .closeRes [7, 8] 2 ∧
    PlaceResult.successField (.closeRes [7, 8] 2) = none ∧
    PlaceResult.messageField (.closeRes [7, 8] 2) = none :=
  c3_close_exceeding_volume VenueW3 "" "EURUSD" "close" 2 none none
    [⟨7, ORDER_TYPE_BUY, 1⟩, ⟨8, ORDER_TYPE_SELL, 1/2⟩]
    rfl rfl (fun _ => rfl) (fun _ => ⟨8002, rfl⟩) rfl (by decide) (by decide)

/-- Witness for C4: two long positions (1 and 1/2 lots), requested 5/4. -/
theorem c4_close_only_consumption_witness :
    (∃ ext, (close_position_by_volume VenueW4 true "" "EURUSD" (5/4) none
        VSt.init).2.trace = VSt.init.trace ++ ext ∧
      ((closeSubmitsIn ext).map (fun r => r.volume)).sum ≤
        (([⟨21, ORDER_TYPE_BUY, 1⟩, ⟨22, ORDER_TYPE_BUY, 1/2⟩] :
          List Position).map (fun p => p.volume)).sum ∧
      List.Sublist (close_position_by_volume VenueW4 true "" "EURUSD" (5/4) none
          VSt.init).1
        (([⟨21, ORDER_TYPE_BUY, 1⟩, ⟨22, ORDER_TYPE_BUY, 1/2⟩] :
          List Position).map (fun p => p.ticket))) ∧
    ((∀ i, (VenueW4.ticks i).isSome = true) →
      (∀ i, ∃ k, VenueW4.sends i = .done k) →
      ∃ ext, (close_position_by_volume VenueW4 true "" "EURUSD" (5/4) none
          VSt.init).2.trace = VSt.init.trace ++ ext ∧
        (closeSubmitsIn ext).map (fun r => (r.posTicket.getD 0, r.volume)) =
          specConsume [⟨21, ORDER_TYPE_BUY, 1⟩, ⟨22, ORDER_TYPE_BUY, 1/2⟩] (5/4) ∧
        (close_position_by_volume VenueW4 true "" "EURUSD" (5/4) none
            VSt.init).1 =
          (specConsume [⟨21, ORDER_TYPE_BUY, 1⟩, ⟨22, ORDER_TYPE_BUY, 1/2⟩]
            (5/4)).map Prod.fst) :=
  c4_close_only_consumption VenueW4 "" "EURUSD" (5/4) VSt.init
    [⟨21, ORDER_TYPE_BUY, 1⟩, ⟨22, ORDER_TYPE_BUY, 1/2⟩] rfl (by decide)

/-- Counterexample to C5 as stated: the action `CLOSE`, which the claim says
the normalizer accepts, is rejected by the webhook with an invalid-action
response before any venue order is submitted. -/
theorem c5_counterexample :
    webhook [("symbol", JVal.str "EURUSD"), ("action", JVal.str "CLOSE"),
      ("volume", JVal.num (1/4))] true (1/4) =
      .reject 400 "Invalid action CLOSE. Must be one of: BUY, SELL, LONG, SHORT" := by
  decide

/-- Witness for C5: an unknown action never reaches the handler. -/
theorem c5_action_whitelist_witness :
    webhook [("symbol", JVal.str "EURUSD"), ("action", JVal.str "HOLD"),
      ("volume", JVal.num (1/4))] true (1/4) ≠
      .trade "EURUSD" "HOLD" (1/4) true :=
  c5_action_whitelist.2.2
    [("symbol", JVal.str "EURUSD"), ("action", JVal.str "HOLD"),
      ("volume", JVal.num (1/4))] true (1/4) "HOLD" rfl (by decide)
    "EURUSD" "HOLD" (1/4) true

/-- Counterexample to C6 as stated: the gateway raises while closing the
second of three legs (ticket 222); the claim says the remaining leg is not
attempted and the overall result is a ConnectivityError, but the code
submits all three legs — the trace contains close submissions for 111, 222
and 333 — and returns the plain list of the successfully closed tickets. -/
theorem c6_counterexample :
    (close_all_positions_by_type VenueC6 true "" "EURUSD" ORDER_TYPE_SELL
      VSt.init).1 = [111, 333] ∧
    submittedCloseTickets (close_all_positions_by_type VenueC6 true "" "EURUSD"
      ORDER_TYPE_SELL VSt.init).2.trace = [111, 222, 333] := by
  refine ⟨?_, ?_⟩ <;> decide

/-- Witness for C6 at the concrete three-position venue with a raising
gateway. -/
theorem c6_failures_do_not_stop_closing_witness :
    ∃ ext, (close_all_positions_by_type VenueC6 true "" "EURUSD"
        ORDER_TYPE_SELL VSt.init).2.trace = VSt.init.trace ++ ext ∧
      submittedCloseTickets ext =
        (([⟨111, ORDER_TYPE_SELL, 1⟩, ⟨222, ORDER_TYPE_SELL, 1⟩,
          ⟨333, ORDER_TYPE_SELL, 1⟩] : List Position).filter
            (fun p => p.ptype == ORDER_TYPE_SELL)).map (fun p => p.ticket) ∧
      List.Sublist (close_all_positions_by_type VenueC6 true "" "EURUSD"
          ORDER_TYPE_SELL VSt.init).1
        ((([⟨111, ORDER_TYPE_SELL, 1⟩, ⟨222, ORDER_TYPE_SELL, 1⟩,
          ⟨333, ORDER_TYPE_SELL, 1⟩] : List Position).filter
            (fun p => p.ptype == ORDER_TYPE_SELL)).map (fun p => p.ticket)) :=
  c6_failures_do_not_stop_closing VenueC6 "" "EURUSD" ORDER_TYPE_SELL VSt.init
    [⟨111, ORDER_TYPE_SELL, 1⟩, ⟨222, ORDER_TYPE_SELL, 1⟩,
      ⟨333, ORDER_TYPE_SELL, 1⟩] rfl (fun _ => rfl)

/-- Counterexample to C7 as stated: the `volume` alias is present with value
0; the claim says that value is used and its validation decides the outcome
(a rejection), but the `or`-chain skips the falsy 0 and the request trades
with the configured default 1/4. -/
theorem c7_counterexample :
    List.lookup "volume" [("symbol", JVal.str "EURUSD"),
      ("action", JVal.str "BUY"), ("volume", JVal.num 0)] = some (JVal.num 0) ∧
    webhook [("symbol", JVal.str "EURUSD"), ("action", JVal.str "BUY"),
      ("volume", JVal.num 0)] true (1/4) = .trade "EURUSD" "BUY" (1/4) true := by
  refine ⟨rfl, ?_⟩
  decide

/-- Counterexample to C8 as stated: in the concrete buy-against-one-short
run, the trace is tick fetch, two position fetches, tick fetch, close
submission, open submission; the close leg is priced 21 from the second
quote, but the open leg is priced 11, the ask of the first quote — fetched
before the close submission — and no quote at all is fetched after the
close leg, contradicting the claim that the open price comes from a quote
fetched after all closes. -/
theorem c8_counterexample :
    c8run.map Event.tag = [.tickF, .posF, .posF, .tickF, .closeSub, .openSub] ∧
    (openSubmitsIn c8run).map (fun r => r.price) = [11] ∧
    (closeSubmitsIn c8run).map (fun r => r.price) = [21] ∧
    tickFetchesIn c8run = [some ⟨10, 11⟩, some ⟨20, 21⟩] := by
  refine ⟨?_, ?_, ?_, ?_⟩ <;> decide

/-- Claim C9 (amended): volume validation fails for values that are not
positive, above 100, or below the 0.01 minimum after rounding to two
decimals; but for the input string "0.005" it succeeds with 0.01, because
the IEEE-754 double nearest to 0.005 is slightly above 0.005, so Python
`round(·, 2)` rounds it up to 0.01, which meets the minimum. -/
theorem c9_volume_validation (x : ℚ) :
    (x ≤ 0 → validate_core x =
      .error "Lot size must be positive (greater than 0)") ∧
    (100 < x → validate_core x =
      .error "Lot size too large (maximum 100 lots allowed)") ∧
    (0 < x → x ≤ 100 → pyRound2 x < min_lots → validate_core x =
      .error "Lot size too small (minimum 0.01 lots)") ∧
    validate_volume (.str "0.005") = .ok min_lots := by
  refine ⟨?_, ?_, ?_, ?_⟩
  · intro h
    simp [validate_core, h]
  · intro h
    have h0 : ¬ x ≤ 0 := by linarith
    simp [validate_core, h0, h]
  · intro h1 h2 h3
    have h0 : ¬ x ≤ 0 := by linarith
    have h4 : ¬ 100 < x := by linarith
    simp [validate_core, h0, h4, h3]
  · rfl

/-- Witness for C9: concrete failing and passing inputs for each branch of
the validation. -/
theorem c9_volume_validation_witness :
    validate_core (-1) = .error "Lot size must be positive (greater than 0)" ∧
    validate_core 101 = .error "Lot size too large (maximum 100 lots allowed)" ∧
    validate_core (1/1000) = .error "Lot size too small (minimum 0.01 lots)" ∧
    validate_volume (.str "0.005") = .ok min_lots :=
  ⟨(c9_volume_validation (-1)).1 (by norm_num),
    (c9_volume_validation 101).2.1 (by norm_num),
    (c9_volume_validation (1/1000)).2.2.1 (by norm_num) (by norm_num) (by decide),
    (c9_volume_validation 0).2.2.2⟩

/-- Counterexample to C9 as stated: for the input string "0.005" validation
does not fail — it succeeds and returns the double 0.01 (the exact rational
value below), because `float("0.005")` is slightly above 0.005 and rounding
to two decimals yields 0.01. -/
theorem c9_counterexample :
    validate_volume (JVal.str "0.005") = .ok min_lots ∧
    min_lots = 5764607523034235 / 576460752303423488 := by
  refine ⟨rfl, ?_⟩
  decide

end ConcreteRuns

end TVMT5
